import Mathlib

/-!
Verification development for the calq expression evaluator.

The development shallowly embeds the Rust sources:

* `src/expr.rs` — the `Value` numeric tower (exact rationals vs
  arbitrary-precision binary floats from the `rug`/MPFR bignum library),
  the `perform_op` promotion rule, checked division, the tree-walking
  `Evaluator`, and the expression grammar;
* `src/div.rs` — the `CheckedDiv` trait (divisor compared with the zero of
  its own representation);
* `src/expr/trig.rs` — the `bigdecimal`-based polynomial `sin`
  approximation (decimal constants for pi, Chebyshev-derived coefficient
  lists, range reduction);
* `src/expr/print.rs` — the precedence-aware printer and the decimal
  notation selection.

Rational numbers stand in for `rug::Rational` (both are always reduced).
MPFR floats at the evaluator's fixed precision of 100 bits are embedded as
dyadic values `m * 2^e` together with the special values infinity and NaN;
every arithmetic operation correctly rounds the exact result to 100 bits
with round-to-nearest, ties-to-even, exactly as MPFR specifies.
`bigdecimal::BigDecimal` is embedded as a pair of an integer and a decimal
scale, with the crate's exact addition/subtraction/multiplication and its
100-significant-digit rounded division.
-/

set_option maxRecDepth 40000

set_option maxHeartbeats 1000000

/-! ## Round-to-nearest helpers (MPFR round-to-nearest, ties to even)

All numeric helpers below work on integer numerator/denominator pairs, so
that every definition evaluates by kernel reduction (the arithmetic stays
inside the kernel-accelerated integer operations). -/

/-- The power `10^k` as an integer. -/
def intTenPow (k : ℕ) : ℤ := ((10 ^ k : ℕ) : ℤ)

/-- The power `2^k` as an integer. -/
def intTwoPow (k : ℕ) : ℤ := ((2 ^ k : ℕ) : ℤ)

/-- The integer nearest to the fraction `N / D` (with `D` positive), ties
going to the even integer. -/
def roundHalfEvenND (N D : ℤ) : ℤ :=
  let f : ℤ := N.fdiv D
  let r : ℤ := N - f * D
  if 2 * r < D then f
  else if D < 2 * r then f + 1
  else if f % 2 = 0 then f else f + 1

/-- Whether `2^e ≤ N / D` (for positive `N`, `D`), by cross-multiplying. -/
def twoPowLe (e : ℤ) (N D : ℕ) : Bool :=
  if 0 ≤ e then D * 2 ^ e.toNat ≤ N else D ≤ N * 2 ^ (-e).toNat

/-- Exponential search: the least power-of-two bound `hi` (doubling from
the given start) with `n < b^hi`. -/
def expSearch (b : ℕ) : ℕ → ℕ → ℕ → ℕ
  | 0, _, hi => hi
  | fuel + 1, n, hi => if n < b ^ hi then hi else expSearch b fuel n (hi * 2)

/-- Binary search for the least `d` in `(lo, hi]` with `n < b^d`, given
`b^lo ≤ n < b^hi`. -/
def binSearch (b : ℕ) : ℕ → ℕ → ℕ → ℕ → ℕ
  | 0, _, hi, _ => hi
  | fuel + 1, lo, hi, n =>
      if hi - lo ≤ 1 then hi
      else
        let mid := (lo + hi) / 2
        if n < b ^ mid then binSearch b fuel lo mid n else binSearch b fuel mid hi n

/-- Floor logarithm of a positive natural in base `b ≥ 2` (the least `d`
with `n < b^(d+1)`, i.e. `b^d ≤ n < b^(d+1)`). -/
def natLogF (b n : ℕ) : ℕ :=
  binSearch b 64 0 (expSearch b 64 n 1) n - 1

/-- Binary floor logarithm of the positive fraction `N / D`
(`2^e ≤ N/D < 2^(e+1)`): an estimate from the integer logarithms,
corrected by direct comparison. -/
def intLog2 (N D : ℕ) : ℤ :=
  let e0 : ℤ := (natLogF 2 N : ℤ) - (natLogF 2 D : ℤ)
  if twoPowLe (e0 + 1) N D then e0 + 1
  else if twoPowLe e0 N D then e0
  else e0 - 1

/-- Round a nonzero rational to a binary floating-point value of `prec`
significant bits (round to nearest, ties to even), returned as a mantissa
and a binary exponent; zero maps to `(0, 0)`.  This is the rounding MPFR
performs when a value enters a `rug::Float` of precision `prec` under
`Round::Nearest`. -/
def roundQ (prec : ℕ) (q : ℚ) : ℤ × ℤ :=
  if q.num = 0 then (0, 0)
  else
    let e : ℤ := intLog2 q.num.natAbs q.den
    let sh : ℤ := (prec : ℤ) - 1 - e
    let p : ℤ × ℤ :=
      if 0 ≤ sh then (q.num * intTwoPow sh.toNat, (q.den : ℤ))
      else (q.num, (q.den : ℤ) * intTwoPow (-sh).toNat)
    (roundHalfEvenND p.1 p.2, -sh)

/-! ## The model of `rug::Float` values

Every float created by the program has precision 100 (the `Decent`
profile), so a float value is a dyadic rational `m * 2^e`, or one of the
MPFR special values infinity and NaN.  Signed zeros are collapsed to the
single dyadic zero; none of the program paths embedded here distinguishes
them. -/

inductive FloatVal where
  | finite (m : ℤ) (e : ℤ)
  | infVal (negSign : Bool)
  | nanVal
  deriving DecidableEq, Repr

namespace FloatVal

/-- Numeric value of a float: `none` for infinity/NaN. -/
def toRatOpt : FloatVal → Option ℚ
  | finite m e => some ((m : ℚ) * 2 ^ e)
  | _ => none

/-- Numeric value of a finite float (infinity/NaN mapped to 0); used only
where the argument is known finite. -/
def toRat : FloatVal → ℚ
  | finite m e => (m : ℚ) * 2 ^ e
  | _ => 0

/-- Whether the float is finite. -/
def isFinite : FloatVal → Bool
  | finite _ _ => true
  | _ => false

/-- Whether a finite float is (strictly) negative; used for the sign of
products and quotients. -/
def sgnNeg : FloatVal → Bool
  | finite m _ => m < 0
  | infVal s => s
  | nanVal => false

/-- Conversion `Float::with_val_round(prec, q, Round::Nearest)`: correctly rounded
conversion into a float of precision `prec`. -/
def ofRat (prec : ℕ) (q : ℚ) : FloatVal :=
  let p := roundQ prec q
  finite p.1 p.2

/-- Float addition at precision `prec` (MPFR: correctly rounded exact sum;
IEEE rules for the special values). -/
def add (prec : ℕ) : FloatVal → FloatVal → FloatVal
  | finite a ea, finite b eb => ofRat prec ((a : ℚ) * 2 ^ ea + (b : ℚ) * 2 ^ eb)
  | nanVal, _ => nanVal
  | _, nanVal => nanVal
  | infVal s, infVal t => if s = t then infVal s else nanVal
  | infVal s, finite _ _ => infVal s
  | finite _ _, infVal t => infVal t

/-- Float subtraction at precision `prec`. -/
def sub (prec : ℕ) : FloatVal → FloatVal → FloatVal
  | finite a ea, finite b eb => ofRat prec ((a : ℚ) * 2 ^ ea - (b : ℚ) * 2 ^ eb)
  | nanVal, _ => nanVal
  | _, nanVal => nanVal
  | infVal s, infVal t => if s = !t then infVal s else nanVal
  | infVal s, finite _ _ => infVal s
  | finite _ _, infVal t => infVal (!t)

/-- Float multiplication at precision `prec`. -/
def mul (prec : ℕ) : FloatVal → FloatVal → FloatVal
  | finite a ea, finite b eb => ofRat prec (((a : ℚ) * 2 ^ ea) * ((b : ℚ) * 2 ^ eb))
  | nanVal, _ => nanVal
  | _, nanVal => nanVal
  | infVal s, infVal t => infVal (xor s t)
  | infVal s, finite m _ => if m = 0 then nanVal else infVal (xor s (m < 0))
  | finite m _, infVal t => if m = 0 then nanVal else infVal (xor (m < 0) t)

/-- Float division at precision `prec`.  MPFR produces an infinity when a
nonzero finite value is divided by zero — there is no error path. -/
def div (prec : ℕ) : FloatVal → FloatVal → FloatVal
  | finite a ea, finite b eb =>
      if b = 0 then
        (if a = 0 then nanVal else infVal (a < 0))
      else ofRat prec (((a : ℚ) * 2 ^ ea) / ((b : ℚ) * 2 ^ eb))
  | nanVal, _ => nanVal
  | _, nanVal => nanVal
  | infVal _, infVal _ => nanVal
  | infVal s, finite m _ => infVal (xor s (m < 0))
  | finite _ _, infVal _ => finite 0 0

/-- Float negation (sign flip; exact, no rounding). -/
def neg : FloatVal → FloatVal
  | finite m e => finite (-m) e
  | infVal s => infVal (!s)
  | nanVal => nanVal

end FloatVal

/-! ## `Value`, the numeric tower of `src/expr.rs` -/

inductive Value where
  | Exact (r : ℚ)
  | Decimal (f : FloatVal)
  deriving DecidableEq, Repr

/-- The error type of `src/div.rs`. -/
inductive DivisionByZero where
  | divisionByZero
  deriving DecidableEq, Repr

/-- Impl `CheckedDiv for BigRational` (`src/div.rs`): compare the divisor with
the zero of its own representation, then divide exactly. -/
def checkedDivRat (a b : ℚ) : Except DivisionByZero ℚ :=
  if b = 0 then .error .divisionByZero else .ok (a / b)

/-- Impl `CheckedDiv for BigDecimal` (`src/div.rs`), on the numeric value of the
decimal: same zero check, then division. -/
def checkedDivDecimalValue (a b : ℚ) : Except DivisionByZero ℚ :=
  if b = 0 then .error .divisionByZero else .ok (a / b)

inductive PrecisionMode where
  | Decent
  deriving DecidableEq, Repr

def PrecisionMode.precision : PrecisionMode → ℕ
  | .Decent => 100

structure Evaluator where
  precisionMode : PrecisionMode
  deriving DecidableEq, Repr

def Evaluator.default : Evaluator := ⟨.Decent⟩

def Evaluator.precision (ev : Evaluator) : ℕ := ev.precisionMode.precision

/-- The conversion closure `conv` inside `perform_op`:
`Float::with_val_round(evaluator.precision(), x, evaluator.round()).0`. -/
def Evaluator.conv (ev : Evaluator) (x : ℚ) : FloatVal :=
  FloatVal.ofRat ev.precision x

/-- Function `perform_op` from `src/expr.rs`: `(Exact, Exact)` stays exact; any
`Decimal` operand converts the other operand with `conv` and performs the
decimal operation; the result is `Decimal` whenever an input is. -/
def performOp {E : Type} (a b : Value)
    (doExact : ℚ → ℚ → Except E ℚ)
    (doDecimal : FloatVal → FloatVal → Evaluator → Except E FloatVal)
    (ev : Evaluator) : Except E Value :=
  match a, b with
  | .Exact a, .Exact b => (doExact a b).map .Exact
  | .Decimal a, .Exact b => (doDecimal a (ev.conv b) ev).map .Decimal
  | .Exact a, .Decimal b => (doDecimal (ev.conv a) b ev).map .Decimal
  | .Decimal a, .Decimal b => (doDecimal a b ev).map .Decimal

/-- Eliminate the impossible error of an infallible `perform_op`
(`match e {}` on `Infallible` in the source). -/
def elimInfallible : Except Empty Value → Value
  | .ok v => v
  | .error e => e.elim

/-- Method `Value::add` (the `op_impl!` expansion with `+`). -/
def Value.add (a b : Value) (ev : Evaluator) : Value :=
  elimInfallible <| performOp a b (fun a b => .ok (a + b))
    (fun a b _ => .ok (FloatVal.add ev.precision a b)) ev

/-- Method `Value::sub` (the `op_impl!` expansion with `-`). -/
def Value.sub (a b : Value) (ev : Evaluator) : Value :=
  elimInfallible <| performOp a b (fun a b => .ok (a - b))
    (fun a b _ => .ok (FloatVal.sub ev.precision a b)) ev

/-- Method `Value::mul` (the `op_impl!` expansion with `*`). -/
def Value.mul (a b : Value) (ev : Evaluator) : Value :=
  elimInfallible <| performOp a b (fun a b => .ok (a * b))
    (fun a b _ => .ok (FloatVal.mul ev.precision a b)) ev

/-- Method `Value::div`: `perform_op` with `CheckedDiv::checked_div` on the exact
path and plain `div_assign_round` (no zero check) on the decimal path. -/
def Value.div (a b : Value) (ev : Evaluator) : Except DivisionByZero Value :=
  performOp a b checkedDivRat
    (fun a b e => .ok (FloatVal.div e.precision a b)) ev

/-- Negation `impl Neg for Value`: representation-preserving negation. -/
def Value.neg : Value → Value
  | .Exact e => .Exact (-e)
  | .Decimal d => .Decimal d.neg

/-! ## The expression AST and the tree-walking evaluator -/

inductive Expr where
  | Value (v : Value)
  | Symbol (s : String)
  | Add (a b : Expr)
  | Sub (a b : Expr)
  | Mul (a b : Expr)
  | Div (a b : Expr)
  | Neg (a : Expr)
  | Apply (f : Expr) (args : List Expr)

/-- Result of one `Evaluator::eval` call.  `ok`/`err` are the two sides of
the returned `color_eyre::Result` (`err` is reported by the REPL, which
then continues with the next line); `panicked` models the `todo!()`
panics, which unwind out of `main` and terminate the process. -/
inductive Outcome where
  | ok (e : Expr)
  | err (e : DivisionByZero)
  | panicked

/-- The common part of `eval_binop` after the two recursive `eval` calls
(the recursion itself is inlined in `eval` below): both `Value` children
feed the numerical closure, any other pair is rebuilt with the fallback
constructor. -/
def evalBinop (ra rb : Expr)
    (numerical : Value → Value → Except DivisionByZero Value)
    (fallback : Expr → Expr → Expr) : Outcome :=
  match ra, rb with
  | .Value a, .Value b =>
      match numerical a b with
      | .ok v => .ok (.Value v)
      | .error e => .err e
  | a, b => .ok (fallback a b)

/-- The `Apply` arm's handling after the callee and the single argument
have been evaluated (`args.len() == 1`).  The argument's outcome is
consulted only when the callee reduced to the symbol `"sin"`; in the
source the argument is not even evaluated otherwise, which is
indistinguishable in this pure embedding since the outcome is discarded.
Every unsupported combination is the `todo!()` panic. -/
def applySin1 (sinF : FloatVal → FloatVal) (rf ra : Outcome) : Outcome :=
  match rf with
  | .ok (.Symbol n) =>
      if n = "sin" then
        (match ra with
         | .ok (.Value (.Decimal d)) => .ok (.Value (.Decimal (sinF d)))
         | .ok _ => .panicked
         | o => o)
      else .panicked
  | .ok _ => .panicked
  | o => o

/-- The `Apply` arm's handling when the argument list does not have
exactly one element: the arity guard fails, so any successfully evaluated
callee falls into `todo!()`; a callee failure propagates. -/
def applySin0 (rf : Outcome) : Outcome :=
  match rf with
  | .ok _ => .panicked
  | o => o

/-- Method `Evaluator::eval` from `src/expr.rs`.  `sinF` is the bignum library's
in-place `Float::sin_round` (an external MPFR routine, taken as a
parameter of the embedding); the `mod trig` module is commented out in the
source and is not part of evaluation. -/
def eval (sinF : FloatVal → FloatVal) (ev : Evaluator) : Expr → Outcome
  | .Value val => .ok (.Value val)
  | .Symbol s => .ok (.Symbol s)
  | .Add a b =>
      match eval sinF ev a with
      | .ok ra =>
          match eval sinF ev b with
          | .ok rb => evalBinop ra rb (fun a b => .ok (a.add b ev)) .Add
          | o => o
      | o => o
  | .Sub a b =>
      match eval sinF ev a with
      | .ok ra =>
          match eval sinF ev b with
          | .ok rb => evalBinop ra rb (fun a b => .ok (a.sub b ev)) .Sub
          | o => o
      | o => o
  | .Mul a b =>
      match eval sinF ev a with
      | .ok ra =>
          match eval sinF ev b with
          | .ok rb => evalBinop ra rb (fun a b => .ok (a.mul b ev)) .Mul
          | o => o
      | o => o
  | .Div a b =>
      match eval sinF ev a with
      | .ok ra =>
          match eval sinF ev b with
          | .ok rb => evalBinop ra rb (fun a b => a.div b ev) .Div
          | o => o
      | o => o
  | .Neg a =>
      match eval sinF ev a with
      | .ok (.Value v) => .ok (.Value v.neg)
      | .ok other => .ok (.Neg other)
      | o => o
  | .Apply f args =>
      match args with
      | [arg] => applySin1 sinF (eval sinF ev f) (eval sinF ev arg)
      | _ => applySin0 (eval sinF ev f)

/-! ## `bigdecimal::BigDecimal` and the trig module `src/expr/trig.rs`

A `BigDecimal` is a big integer together with a decimal scale; its numeric
value is `intVal / 10^scale`.  Addition, subtraction and multiplication
are exact; division keeps `DEFAULT_PRECISION = 100` significant digits of
the quotient, rounding the last kept digit half-up (the crate's
`impl_division` with its `get_rounding_term`). -/

structure BigDec where
  intVal : ℤ
  scale : ℤ
  deriving DecidableEq, Repr

namespace BigDec

/-- Numeric value of a `BigDecimal` (equal to `intVal / 10^scale`, see
`BigDec.toRat_eq`; stated with `Rat.divInt` so that it evaluates by kernel
reduction). -/
def toRat (x : BigDec) : ℚ :=
  if 0 ≤ x.scale then Rat.divInt x.intVal (intTenPow x.scale.toNat)
  else Rat.divInt (x.intVal * intTenPow (-x.scale).toNat) 1

/-- Sign test `Signed::is_negative`: the sign of the big integer. -/
def isNegative (x : BigDec) : Bool := x.intVal < 0

/-- Negation (exact, scale preserved). -/
def negD (x : BigDec) : BigDec := ⟨-x.intVal, x.scale⟩

/-- Exact addition: align to the larger scale, add the integers. -/
def addD (a b : BigDec) : BigDec :=
  let s := max a.scale b.scale
  ⟨a.intVal * intTenPow (s - a.scale).toNat + b.intVal * intTenPow (s - b.scale).toNat, s⟩

/-- Exact subtraction: align to the larger scale, subtract the integers. -/
def subD (a b : BigDec) : BigDec :=
  let s := max a.scale b.scale
  ⟨a.intVal * intTenPow (s - a.scale).toNat - b.intVal * intTenPow (s - b.scale).toNat, s⟩

/-- Exact multiplication: multiply integers, add scales. -/
def mulD (a b : BigDec) : BigDec := ⟨a.intVal * b.intVal, a.scale + b.scale⟩

/-- Numeric strict order on decimals (`PartialOrd for BigDecimal`
compares the values after aligning the scales). -/
def ltD (a b : BigDec) : Bool :=
  let s := max a.scale b.scale
  a.intVal * intTenPow (s - a.scale).toNat < b.intVal * intTenPow (s - b.scale).toNat

/-- Truncation `with_scale_round(0, RoundingMode::Down)` followed by
`into_bigint_and_exponent().0`: the value truncated toward zero to an
integer. -/
def truncToInt (x : BigDec) : ℤ :=
  if x.scale ≤ 0 then x.intVal * intTenPow (-x.scale).toNat
  else
    let d : ℤ := intTenPow x.scale.toNat
    if x.intVal < 0 then -((-x.intVal) / d) else x.intVal / d

/-- Number of decimal digits of a natural number (`count_decimal_digits`):
one more than the decimal floor logarithm. -/
def digits10 (n : ℕ) : ℕ :=
  if n = 0 then 1 else natLogF 10 n + 1

/-- The `while num < den { num *= 10; scale += 1 }` loop at the head of the
crate's `impl_division`, with explicit fuel (`digits10 d + 1` steps always
suffice for a nonzero numerator). -/
def scaleUpLoop : ℕ → ℕ → ℕ → ℤ → ℕ × ℤ
  | 0, n, _, s => (n, s)
  | fuel + 1, n, d, s =>
      if n < d then scaleUpLoop fuel (n * 10) d (s + 1) else (n, s)

/-- The digit-generating loop of `impl_division`: extend the quotient one
decimal digit at a time while the remainder is nonzero and fewer than
`maxPrecision` significant digits have been produced. -/
def divLoop (maxPrecision : ℕ) : ℕ → ℕ → ℕ → ℕ → ℤ → ℕ × ℕ × ℤ
  | 0, q, r, _, s => (q, r, s)
  | fuel + 1, q, r, d, s =>
      if r ≠ 0 ∧ digits10 q < maxPrecision then
        divLoop maxPrecision fuel (q * 10 + r * 10 / d) (r * 10 % d) d (s + 1)
      else (q, r, s)

/-- The crate's `impl_division`: signs split off, numerator scaled up to at
least the denominator, long division to `maxPrecision` significant digits,
final digit rounded half-up from the next digit (`get_rounding_term`). -/
def implDivision (numIn denIn : ℤ) (scaleIn : ℤ) (maxPrecision : ℕ) : BigDec :=
  let negRes := (decide (numIn < 0)) ≠ (decide (denIn < 0))
  let n0 := numIn.natAbs
  let d := denIn.natAbs
  let p1 := scaleUpLoop (digits10 d + 1) n0 d scaleIn
  let q0 := p1.1 / d
  let r0 := p1.1 % d
  let p2 := divLoop maxPrecision maxPrecision q0 r0 d p1.2
  let q := p2.1
  let r := p2.2.1
  let s := p2.2.2
  let rounded := if r ≠ 0 then q + (if r * 10 / d ≥ 5 then 1 else 0) else q
  ⟨if negRes then -(rounded : ℤ) else (rounded : ℤ), s⟩

/-- Impl `Div for BigDecimal` (the `&x / &*PI` in the trig module).  A zero
dividend returns zero (the crate returns `self`); a zero divisor panics in
the crate and is unreachable here (the divisor is always the constant pi),
so it is mapped to zero.  `DEFAULT_PRECISION` is 100. -/
def divD (a b : BigDec) : BigDec :=
  if b.intVal = 0 then ⟨0, 0⟩
  else if a.intVal = 0 then a
  else implDivision a.intVal b.intVal (a.scale - b.scale) 100

end BigDec

/-- The constant `PI`: `N[Pi,100]`, 100 significant digits as a decimal of
scale 99 (`src/expr/trig.rs`). -/
def piBD : BigDec :=
  ⟨3141592653589793238462643383279502884197169399375105820974944592307816406286208998628034825342117068, 99⟩

/-- The constant `PI_OVER_TWO`: `N[Pi/2,100]`, scale 99. -/
def piOverTwoBD : BigDec :=
  ⟨1570796326794896619231321691639751442098584699687552910487472296153908203143104499314017412671058534, 99⟩

/-- The constant `PI_OVER_FOUR`: `N[Pi/4,100]`, scale 100. -/
def piOverFourBD : BigDec :=
  ⟨7853981633974483096156608458198757210492923498437764552437361480769541015715522496570087063355292670, 100⟩

/-- Coefficient list of `sin_restricted` (coefficients of x^3, x^5, ...;
the leading x^1 coefficient 1 is the initial accumulator). -/
def sinCoeffs : List BigDec := [
  ⟨-16666666666666666667, 20⟩,
  ⟨83333333333333333330, 22⟩,
  ⟨-19841269841269840864, 23⟩,
  ⟨27557319223985653805, 25⟩,
  ⟨-25052108385359014909, 27⟩,
  ⟨16059043818789573688, 29⟩,
  ⟨-76471612574465163742, 32⟩,
  ⟨28112496468372364173, 34⟩,
  ⟨-81233245813335029845, 37⟩
]

/-- Coefficient list of `cos_restricted` (coefficients of x^2, x^4, ...;
the x^0 coefficient 1 is the initial accumulator). -/
def cosCoeffs : List BigDec := [
  ⟨-50000000000000000000, 20⟩,
  ⟨41666666666666666667, 21⟩,
  ⟨-13888888888888888888, 22⟩,
  ⟨24801587301587301080, 24⟩,
  ⟨-27557319223985653805, 26⟩,
  ⟨20876756987799179091, 28⟩,
  ⟨-11470745584849695492, 30⟩,
  ⟨47794757859040727339, 33⟩,
  ⟨-15618053593540202318, 35⟩,
  ⟨40616622906667514923, 38⟩
]

/-- Function `sin_restricted`: Chebyshev-derived odd polynomial on `[0, pi/4]`,
evaluated by accumulating odd powers of the argument against the fixed
coefficient list. -/
def sinRestricted (x : BigDec) : BigDec :=
  let xSquared := x.mulD x
  (sinCoeffs.foldl
    (fun st c =>
      let currentMul := st.1.mulD xSquared
      (currentMul, st.2.addD (c.mulD currentMul)))
    (x, x)).2

/-- Function `cos_restricted`: Chebyshev-derived even polynomial on `[0, pi/4]`. -/
def cosRestricted (x : BigDec) : BigDec :=
  let xSquared := x.mulD x
  (cosCoeffs.foldl
    (fun st c =>
      let currentMul := st.1.mulD xSquared
      (currentMul, st.2.addD (c.mulD currentMul)))
    (⟨1, 0⟩, ⟨1, 0⟩)).2

/-- Step 1 of `sin`: strip the sign, keeping `|x|`. -/
def sinAbs (x : BigDec) : BigDec := if x.isNegative then x.negD else x

/-- Step 2a of `sin`: the integer number of multiples of pi,
`(&x / &*PI).with_scale_round(0, RoundingMode::Down)`. -/
def sinK (a : BigDec) : ℤ := (BigDec.divD a piBD).truncToInt

/-- Step 2b of `sin`: subtract `k` multiples of pi,
`x -= &*PI * BigDecimal::new(multiples_of_pi, 0)`. -/
def sinX1 (a : BigDec) : BigDec := a.subD (piBD.mulD ⟨sinK a, 0⟩)

/-- Step 3 of `sin`: fold `(pi/2, pi]` onto `[0, pi/2)` via
`if &x > &*PI_OVER_TWO { x = &*PI - x }`. -/
def sinX2 (a : BigDec) : BigDec :=
  if piOverTwoBD.ltD (sinX1 a) then piBD.subD (sinX1 a) else sinX1 a

/-- Step 4 of `sin`: split at pi/4 between the sine polynomial (directly)
and the cosine polynomial (at `pi/2 - x`). -/
def sinVal (a : BigDec) : BigDec :=
  if piOverFourBD.ltD (sinX2 a) then cosRestricted (piOverTwoBD.subD (sinX2 a))
  else sinRestricted (sinX2 a)

/-- Function `sin` from `src/expr/trig.rs`: record the sign, reduce `|x|` modulo pi
(flipping the sign for an odd multiple), fold at pi/2, evaluate one of the
two polynomials, and re-apply the recorded sign. -/
def trigSin (x : BigDec) : BigDec :=
  let a := sinAbs x
  let wasNegative := if sinK a % 2 ≠ 0 then !x.isNegative else x.isNegative
  if wasNegative then (sinVal a).negD else sinVal a

/-! ## The printer `src/expr/print.rs` -/

/-- Operator precedence contexts, in the source's (derived) order:
`NoPrecedence < Sum < Product < Neg < FunctionOrFactorial`. -/
inductive PrecedenceContext where
  | NoPrecedence
  | Sum
  | Product
  | Neg
  | FunctionOrFactorial
  deriving DecidableEq, Repr

/-- Rank used to compare precedence contexts (the derived `Ord` compares
constructors in declaration order). -/
def PrecedenceContext.rank : PrecedenceContext → ℕ
  | .NoPrecedence => 0
  | .Sum => 1
  | .Product => 2
  | .Neg => 3
  | .FunctionOrFactorial => 4

/-- The strict order `<` of the derived `PartialOrd`. -/
def PrecedenceContext.ltP (a b : PrecedenceContext) : Bool := a.rank < b.rank

/-- Method `Expr::precedence` from `src/expr.rs`. -/
def Expr.precedence : Expr → PrecedenceContext
  | .Value _ | .Symbol _ => .NoPrecedence
  | .Mul _ _ | .Div _ _ => .Product
  | .Add _ _ | .Sub _ _ => .Sum
  | .Neg _ => .Neg
  | .Apply _ _ => .FunctionOrFactorial

/-- Helper `maybe_enter_parens`: wrap in parentheses exactly when asked to. -/
def parensIf (b : Bool) (s : String) : String :=
  if b then "(" ++ s ++ ")" else s

/-- Whether `10^e ≤ N / D` (for positive `N`, `D`), by cross-multiplying. -/
def tenPowLe (e : ℤ) (N D : ℕ) : Bool :=
  if 0 ≤ e then D * 10 ^ e.toNat ≤ N else D ≤ N * 10 ^ (-e).toNat

/-- Decimal digits of a natural number, least significant first, with the
digit count as fuel (so that rendering evaluates by kernel reduction). -/
def natDigitsRev : ℕ → ℕ → List ℕ
  | 0, _ => []
  | fuel + 1, n => if n < 10 then [n] else n % 10 :: natDigitsRev fuel (n / 10)

/-- Decimal string of a natural number (the rendering `Nat.repr`
produces, computed with digit-count fuel). -/
def natToStr (n : ℕ) : String :=
  String.mk ((natDigitsRev (BigDec.digits10 n) n).reverse.map
    (fun d => Char.ofNat (48 + d)))

/-- Decimal floor logarithm of the positive fraction `N / D`
(`10^e ≤ N/D < 10^(e+1)`): a digit-count estimate corrected by direct
comparison. -/
def intLog10 (N D : ℕ) : ℤ :=
  let e0 : ℤ := (BigDec.digits10 N : ℤ) - (BigDec.digits10 D : ℤ)
  if tenPowLe (e0 + 1) N D then e0 + 1
  else if tenPowLe e0 N D then e0
  else e0 - 1

/-- The digit extraction `Float::to_sign_string_exp(10, Some n)`:
`n` correctly rounded significant decimal digits of the value, and the
exponent such that the value is `0.digits * 10^exp` (MPFR `mpfr_get_str`).
The boolean is the library's negative-sign flag `is_sign_negative()`,
`true` for negative values (e.g. `(true, "625", Some(-1))` for `-0.0625`
and `(true, "inf", None)` for negative infinity); the printer then maps
it through `if sign { "" } else { "-" }`, so the printed prefix comes out
inverted — `-` on nonnegative values — a sign bug of `print.rs` this
embedding reproduces rather than repairs.  Zero (here `+0`) yields `n`
zero digits and exponent 0; infinity and NaN have no exponent. -/
def decParts (n : ℕ) : FloatVal → Bool × String × Option ℤ
  | .finite m e =>
      if m = 0 then (false, String.mk (List.replicate n '0'), some 0)
      else
        let p : ℕ × ℕ :=
          if 0 ≤ e then (m.natAbs * 2 ^ e.toNat, 1) else (m.natAbs, 2 ^ (-e).toNat)
        let mpfrExp : ℤ := intLog10 p.1 p.2 + 1
        let z : ℤ := (n : ℤ) - mpfrExp
        let nd : ℕ × ℕ :=
          if 0 ≤ z then (p.1 * 10 ^ z.toNat, p.2) else (p.1, p.2 * 10 ^ (-z).toNat)
        let d : ℤ := roundHalfEvenND (nd.1 : ℤ) (nd.2 : ℤ)
        if d = intTenPow n then (decide (m < 0), natToStr (10 ^ (n - 1)), some (mpfrExp + 1))
        else (decide (m < 0), natToStr d.toNat, some mpfrExp)
  | .infVal s => (s, "inf", none)
  | .nanVal => (false, "NaN", none)

/-- The `Value::Decimal` arm of `print_with_precedence`: select a notation
from the decimal exponent (shifted by one so the point follows the first
digit) and assemble `sign ++ prefix-part ++ digits ++ suffixes` exactly as
the source's ordered `match` does. -/
def fmtDecimalParts (sgn : Bool) (digits : String) (expOpt : Option ℤ) : String :=
  let sign := if sgn then "" else "-"
  match expOpt.map (· - 1) with
  | some e =>
      if e ≤ -4 then
        sign ++ digits.take 1 ++ "." ++ digits.drop 1 ++ "e" ++ Int.repr e
      else if -5 ≤ e ∧ e ≤ -1 then
        sign ++ "0." ++ String.mk (List.replicate (-e - 1).toNat '0') ++ digits
      else if e = 0 then
        sign ++ digits.take 1 ++ "." ++ digits.drop 1
      else
        sign ++ digits ++ String.mk (List.replicate e.toNat '0')
  | none => sign ++ digits

/-- Decimal formatting at a display budget of `rd` significant digits. -/
def fmtDecimal (rd : ℕ) (f : FloatVal) : String :=
  let p := decParts rd f
  fmtDecimalParts p.1 p.2.1 p.2.2

/-- Impl `Display for rug::Rational`: a reduced fraction, or a bare integer when
the denominator is one. -/
def ratStr (q : ℚ) : String :=
  if q.den = 1 then Int.repr q.num
  else Int.repr q.num ++ "/" ++ Nat.repr q.den

mutual

/-- Method `Printer::print_with_precedence` with display budget `rd`
(`round_digits`, 8 for the `Display` instance): atoms print bare, `Neg`
prints a minus sign and its operand at `Neg` context, a binary node prints
its children at its own context and wraps itself exactly when its own
precedence is below the surrounding context, `Apply` prints a quoted
callee (a fresh `Display` printer) and its arguments at `NoPrecedence`. -/
def printWP (rd : ℕ) : Expr → PrecedenceContext → String
  | .Value (.Decimal f), _ => fmtDecimal rd f
  | .Value (.Exact q), _ => ratStr q
  | .Symbol s, _ => s
  | .Neg x, _ => "-" ++ printWP rd x .Neg
  | .Add a b, p =>
      parensIf (PrecedenceContext.ltP .Sum p)
        (printWP rd a .Sum ++ "+" ++ printWP rd b .Sum)
  | .Sub a b, p =>
      parensIf (PrecedenceContext.ltP .Sum p)
        (printWP rd a .Sum ++ "-" ++ printWP rd b .Sum)
  | .Mul a b, p =>
      parensIf (PrecedenceContext.ltP .Product p)
        (printWP rd a .Product ++ "*" ++ printWP rd b .Product)
  | .Div a b, p =>
      parensIf (PrecedenceContext.ltP .Product p)
        (printWP rd a .Product ++ "/" ++ printWP rd b .Product)
  | .Apply f args, _ =>
      "\"" ++ printWP 8 f .NoPrecedence ++ "\"(" ++ printArgsStr rd args ++ ")"

/-- Comma-separated `Apply` arguments, each at `NoPrecedence`. -/
def printArgsStr (rd : ℕ) : List Expr → String
  | [] => ""
  | [a] => printWP rd a .NoPrecedence
  | a :: rest => printWP rd a .NoPrecedence ++ "," ++ printArgsStr rd rest

end

/-- Instance `impl Display for Expr`: a printer with `round_digits: 8` starting at
`NoPrecedence`. -/
def printExpr (x : Expr) : String := printWP 8 x .NoPrecedence

/-! ## The expression grammar `expr_parser` of `src/expr.rs`

The chumsky combinators are embedded as a recursive-descent parser over a
character list.  `padded` skips whitespace around a token; `or` tries the
first alternative and backtracks to the second; repetitions fold left
(binary chains) or right (unary minus); parse failure is `none`.  Fuel
bounds the recursion through nested parentheses. -/

/-- Whitespace skipping used by `padded`. -/
def skipWs : List Char → List Char
  | c :: rest => if c.isWhitespace then skipWs rest else c :: rest
  | [] => []

/-- Token `text::int(10)`: a nonzero digit followed by digits, or a single 0. -/
def pIntTok : List Char → Option (String × List Char)
  | c :: rest =>
      if c = '0' then some ("0", rest)
      else if c.isDigit then
        some (String.mk (c :: rest.takeWhile Char.isDigit), rest.dropWhile Char.isDigit)
      else none
  | [] => none

/-- Token `text::digits(10)`: one or more digits (leading zeros allowed). -/
def pDigitsTok (s : List Char) : Option (String × List Char) :=
  match s.takeWhile Char.isDigit with
  | [] => none
  | ds => some (String.mk ds, s.dropWhile Char.isDigit)

/-- Token `text::ident()`: an ASCII identifier. -/
def pIdentTok : List Char → Option (String × List Char)
  | c :: rest =>
      if c.isAlpha ∨ c = '_' then
        some (String.mk (c :: rest.takeWhile (fun d => d.isAlphanum ∨ d = '_')),
          rest.dropWhile (fun d => d.isAlphanum ∨ d = '_'))
      else none
  | [] => none

/-- Numeric value of a digit string. -/
def natOfDigits (s : String) : ℕ :=
  s.foldl (fun n c => n * 10 + (c.toNat - '0'.toNat)) 0

/-- The numeric-literal parser of `expr_parser`: an integer part, an
optional `.` with optional fraction digits, an optional `e` with an
(unsigned) integer exponent.  A literal with a point or an exponent is fed
through `Float::parse` and completed at the evaluator's precision and
rounding (a `Decimal`); a plain integer stays `Exact`. -/
def pNumLit (ev : Evaluator) (s : List Char) : Option (Expr × List Char) :=
  let s0 := skipWs s
  match pIntTok s0 with
  | none => none
  | some (ip, s1) =>
      let decPart : Option (Option String) × List Char :=
        match s1 with
        | '.' :: s2 =>
            (match pDigitsTok s2 with
             | some (fp, s3) => (some (some fp), s3)
             | none => (some none, s2))
        | _ => (none, s1)
      let expPart : Option String × List Char :=
        match decPart.2 with
        | 'e' :: s4 =>
            (match pIntTok s4 with
             | some (et, s5) => (some et, s5)
             | none => (none, 'e' :: s4))
        | _ => (none, decPart.2)
      let rest := skipWs expPart.2
      if decPart.1.isSome ∨ expPart.1.isSome then
        let fracDigits := (decPart.1.getD none).getD ""
        let fl := fracDigits.length
        let base : ℚ :=
          ((natOfDigits ip * 10 ^ fl + natOfDigits fracDigits : ℕ) : ℚ) / 10 ^ fl
        let v : ℚ := base * 10 ^ (natOfDigits (expPart.1.getD "0"))
        some (.Value (.Decimal (ev.conv v)), rest)
      else
        some (.Value (.Exact ((natOfDigits ip : ℤ) : ℚ)), rest)

/-- One `op(c)` token: the character, padded. -/
def pOpTok (c : Char) (s : List Char) : Option (List Char) :=
  match skipWs s with
  | d :: rest => if d = c then some (skipWs rest) else none
  | [] => none

/-- The `atom` alternative: a numeric literal, a parenthesized expression,
or an identifier (`Symbol`), padded. -/
def pAtom (pExpr : List Char → Option (Expr × List Char)) (ev : Evaluator)
    (s : List Char) : Option (Expr × List Char) :=
  let s0 := skipWs s
  match pNumLit ev s0 with
  | some r => some r
  | none =>
      match s0 with
      | '(' :: s1 =>
          (match pExpr s1 with
           | some (e, s2) =>
               (match s2 with
                | ')' :: s3 => some (e, skipWs s3)
                | _ => none)
           | none => none)
      | _ =>
          match pIdentTok s0 with
          | some (n, s1) => some (.Symbol n, skipWs s1)
          | none => none

/-- Argument lists: `expr.separated_by(just(',')).allow_trailing()`. -/
def pArgsLoop (pExpr : List Char → Option (Expr × List Char)) :
    ℕ → List Expr → List Char → List Expr × List Char
  | 0, acc, s => (acc.reverse, s)
  | fuel + 1, acc, s =>
      match s with
      | ',' :: s1 =>
          (match pExpr s1 with
           | some (e, s2) => pArgsLoop pExpr fuel (e :: acc) s2
           | none => (acc.reverse, s1))
      | _ => (acc.reverse, s)

/-- Production `func = atom.then(args.delimited_by('(', ')'))`, with `calls =
func.or(atom)` falling back to the bare atom when no well-formed argument
list follows. -/
def pCalls (pExpr : List Char → Option (Expr × List Char)) (ev : Evaluator)
    (s : List Char) : Option (Expr × List Char) :=
  match pAtom pExpr ev s with
  | none => none
  | some (f, s1) =>
      match s1 with
      | '(' :: s2 =>
          (let argsRes :=
            match pExpr s2 with
            | some (e, s3) => pArgsLoop pExpr s3.length [e] s3
            | none => ([], s2)
          match argsRes.2 with
          | ')' :: s4 => some (.Apply f argsRes.1, s4)
          | _ => some (f, s1))
      | _ => some (f, s1)

/-- Production `unary = op('-').repeated().then(calls).foldr(Neg)`. -/
def pUnary (pExpr : List Char → Option (Expr × List Char)) (ev : Evaluator) :
    ℕ → List Char → Option (Expr × List Char)
  | 0, _ => none
  | fuel + 1, s =>
      match pOpTok '-' s with
      | some s1 =>
          (match pUnary pExpr ev fuel s1 with
           | some (e, s2) => some (.Neg e, s2)
           | none => none)
      | none => pCalls pExpr ev s

/-- A left-folded chain of binary operators over a given operand parser:
`operand.then(op.then(operand).repeated()).foldl(..)`. -/
def pBinChain (pOperand : List Char → Option (Expr × List Char))
    (ops : List (Char × (Expr → Expr → Expr))) :
    ℕ → Expr → List Char → Expr × List Char
  | 0, acc, s => (acc, s)
  | fuel + 1, acc, s =>
      match ops.findSome? (fun oc =>
          match pOpTok oc.1 s with
          | some s1 => some (oc.2, s1)
          | none => none) with
      | some (ctor, s1) =>
          (match pOperand s1 with
           | some (rhs, s2) => pBinChain pOperand ops fuel (ctor acc rhs) s2
           | none => (acc, s))
      | none => (acc, s)

/-- The full recursive `expr` parser: products of unaries, sums of
products, with fuel for the recursion through parentheses. -/
def pExprFuel (ev : Evaluator) : ℕ → List Char → Option (Expr × List Char)
  | 0, _ => none
  | fuel + 1, s =>
      let pE := pExprFuel ev fuel
      let pProduct : List Char → Option (Expr × List Char) := fun s =>
        match pUnary pE ev (s.length + 1) s with
        | some (e, s1) =>
            some (pBinChain (pUnary pE ev (s.length + 1))
              [('*', .Mul), ('/', .Div)] (s1.length + 1) e s1)
        | none => none
      match pProduct s with
      | some (e, s1) =>
          some (pBinChain pProduct [('+', .Add), ('-', .Sub)] (s1.length + 1) e s1)
      | none => none

/-- Entry point `expr_parser(e).parse(line)`: run the grammar and require the end of
input (`then_ignore(end())`). -/
def parseExpr (ev : Evaluator) (line : String) : Option Expr :=
  match pExprFuel ev (line.length + 1) line.data with
  | some (e, []) => some e
  | _ => none

/-! ## Auxiliary definitions for the statements below -/

/-- A dyadic rational: the numeric value of some binary floating-point
number, of any precision. -/
def IsDyadic (q : ℚ) : Prop := ∃ m e : ℤ, q = (m : ℚ) * 2 ^ e

/-- A sample value for the external library-sine parameter of `eval`, used
to instantiate closed statements whose evaluation path never applies the
sine (so any function of this type gives the same result there). -/
def someLibSin : FloatVal → FloatVal := fun f => f

/-- The decimal `pi - 10^(-200)` (the 100-digit pi constant minus one unit
in the 200th decimal place), written as a `BigDecimal` of scale 200. -/
def trigAdversarial : BigDec := ⟨piBD.intVal * 10 ^ 101 - 1, 200⟩

/-! ## Helper lemmas -/

/-- Computational fact: the reduced denominator of the trig module's
`sin(1)` is `0 mod 5`. -/
theorem trigSin_one_den_mod : (BigDec.toRat (trigSin ⟨1, 0⟩)).den % 5 = 0 := by
  decide

/-- The denominator of the trig module's `sin(1)` is divisible by 5 (the
value is a nontrivial terminating decimal). -/
theorem trigSin_one_den_five : (5 : ℕ) ∣ (BigDec.toRat (trigSin ⟨1, 0⟩)).den :=
  Nat.dvd_of_mod_eq_zero trigSin_one_den_mod

/-- A rational whose reduced denominator is divisible by 5 is not dyadic. -/
theorem not_isDyadic_of_five_dvd_den (q : ℚ) (h5 : (5 : ℕ) ∣ q.den) :
    ¬ IsDyadic q := by
  rintro ⟨m, e, rfl⟩
  rcases le_or_lt 0 e with he | he
  · have hcast : ((m : ℚ) * 2 ^ e) = ((m * 2 ^ e.toNat : ℤ) : ℚ) := by
      push_cast
      rw [← zpow_natCast (2 : ℚ), Int.toNat_of_nonneg he]
    rw [hcast, Rat.den_intCast] at h5
    have := Nat.eq_one_of_dvd_one h5
    omega
  · have hpow : ((2 : ℚ) ^ (-e).toNat) = (2 : ℚ) ^ (-e) := by
      rw [← zpow_natCast (2 : ℚ), Int.toNat_of_nonneg (by omega : (0 : ℤ) ≤ -e)]
    have hk : ((m : ℚ) * 2 ^ e) = (m : ℚ) / ((2 ^ (-e).toNat : ℤ) : ℚ) := by
      push_cast
      rw [div_eq_mul_inv, hpow, ← zpow_neg, neg_neg]
    have hdvd : (((m : ℚ) / ((2 ^ (-e).toNat : ℤ) : ℚ)).den : ℤ) ∣ 2 ^ (-e).toNat := by
      rw [← Rat.divInt_eq_div]
      exact Rat.den_dvd m (2 ^ (-e).toNat)
    rw [← hk] at hdvd
    have h5' : (5 : ℤ) ∣ 2 ^ (-e).toNat :=
      dvd_trans (Int.natCast_dvd_natCast.mpr h5) hdvd
    have h52 : (5 : ℤ) ∣ 2 :=
      Int.Prime.dvd_pow' (by norm_num) h5'
    omega

/-- Every value a float can take is dyadic or non-numeric: `toRatOpt`
returns `none` or a dyadic rational. -/
theorem FloatVal.toRatOpt_dyadic (f : FloatVal) (q : ℚ)
    (h : f.toRatOpt = some q) : IsDyadic q := by
  cases f with
  | finite m e => exact ⟨m, e, (Option.some.inj h).symm⟩
  | infVal s => simp [FloatVal.toRatOpt] at h
  | nanVal => simp [FloatVal.toRatOpt] at h

/-- C3, counterexample.  The claim asserts that evaluating
`Apply(Symbol "sin", [d])` returns a `Decimal` equal to the trig module's
`sin(d)`.  At `d = 1` this is impossible: the trig module's `sin(1)` is
not a dyadic rational (its reduced denominator is divisible by 5), while
every value a `rug::Float` can carry is dyadic — and indeed the evaluator
never calls the trig module, whose `mod trig;` declaration is commented
out in `src/expr.rs`. -/
theorem c3_counterexample : ¬ IsDyadic (BigDec.toRat (trigSin ⟨1, 0⟩)) :=
  not_isDyadic_of_five_dvd_den _ trigSin_one_den_five

/-- C3, amended.  For every library sine implementation `s` (the evaluator
calls the bignum library's `Float::sin_round`, an external routine, since
the trig module is not compiled in), evaluating `sin` applied to the
decimal 1 dispatches to `s`, and the resulting float — whatever `s`
computes — is numerically different from the trig module's `sin(1)`,
because a float value is dyadic and the trig module's value is not. -/
theorem c3_theorem (s : FloatVal → FloatVal) (ev : Evaluator) :
    eval s ev (.Apply (.Symbol "sin") [.Value (.Decimal (FloatVal.ofRat 100 1))])
      = .ok (.Value (.Decimal (s (FloatVal.ofRat 100 1))))
    ∧ (s (FloatVal.ofRat 100 1)).toRatOpt ≠ some (BigDec.toRat (trigSin ⟨1, 0⟩)) := by
  constructor
  · rfl
  · intro h
    exact not_isDyadic_of_five_dvd_den _ trigSin_one_den_five
      (FloatVal.toRatOpt_dyadic _ _ h)

/-- Double negation of a decimal is the identity. -/
theorem BigDec.negD_negD (x : BigDec) : x.negD.negD = x := by
  cases x
  simp [BigDec.negD]

/-- The trig constant pi has a nonzero integer part. -/
theorem piBD_intVal_ne : piBD.intVal ≠ 0 := by decide

/-- Ten-powers are nonnegative integers. -/
theorem intTenPow_nonneg (k : ℕ) : 0 ≤ intTenPow k := Int.ofNat_nonneg _

/-- Truncating a zero-valued decimal gives the integer zero. -/
theorem truncToInt_zero (M : ℤ) : BigDec.truncToInt ⟨0, M⟩ = 0 := by
  simp only [BigDec.truncToInt]
  split
  · simp
  · simp

/-- Range reduction of a zero-valued decimal yields `k = 0`. -/
theorem sinK_zero (M : ℤ) : sinK ⟨0, M⟩ = 0 := by
  simp only [sinK, BigDec.divD, if_neg piBD_intVal_ne, if_pos rfl]
  exact truncToInt_zero M

/-- Subtraction step of `sin` on a zero-valued decimal stays zero-valued. -/
theorem sinX1_zero (M : ℤ) : sinX1 ⟨0, M⟩ = ⟨0, max M 99⟩ := by
  simp [sinX1, sinK_zero, BigDec.mulD, BigDec.subD, piBD]

/-- A decimal constant with positive integer part is never below a
zero-valued decimal. -/
theorem ltD_pos_zero (c : BigDec) (hc : 0 < c.intVal) (M : ℤ) :
    c.ltD ⟨0, M⟩ = false := by
  simp only [BigDec.ltD, decide_eq_false_iff_not, not_lt, zero_mul]
  exact mul_nonneg (le_of_lt hc) (intTenPow_nonneg _)

/-- The sine polynomial evaluated at a zero-valued decimal is
zero-valued. -/
theorem sinRestricted_zero (M : ℤ) : (sinRestricted ⟨0, M⟩).intVal = 0 := by
  simp [sinRestricted, sinCoeffs, BigDec.mulD, BigDec.addD]

/-- The polynomial branch of `sin` at a zero-valued decimal is
zero-valued. -/
theorem sinVal_zero (M : ℤ) : (sinVal ⟨0, M⟩).intVal = 0 := by
  simp [sinVal, sinX2, sinX1_zero M, ltD_pos_zero piOverTwoBD (by decide),
    ltD_pos_zero piOverFourBD (by decide), sinRestricted_zero]

/-- C9: the trig module's `sin` is odd on the nose — negating the input
negates the output exactly (the sign is recorded, stripped before range
reduction, and re-applied at the end) — and `sin(0)` is exactly zero. -/
theorem c9_theorem :
    (∀ x : BigDec, trigSin x.negD = (trigSin x).negD)
    ∧ (trigSin ⟨0, 0⟩).toRat = 0 := by
  constructor
  · intro x
    cases x with
    | mk i s =>
      rcases lt_trichotomy i 0 with hneg | hzero | hpos
      · have h1 : BigDec.isNegative ⟨i, s⟩ = true := by
          simp [BigDec.isNegative, hneg]
        have h2 : BigDec.isNegative ⟨-i, s⟩ = false := by
          simp only [BigDec.isNegative, decide_eq_false_iff_not, not_lt]
          omega
        have habs : sinAbs ⟨-i, s⟩ = sinAbs ⟨i, s⟩ := by
          simp [sinAbs, BigDec.negD, h1, h2]
        by_cases hk : sinK (sinAbs ⟨i, s⟩) % 2 ≠ 0 <;>
          simp [trigSin, BigDec.negD, habs, h1, h2, hk, BigDec.negD_negD]
      · subst hzero
        have hneg0 : BigDec.isNegative ⟨0, s⟩ = false := by
          simp [BigDec.isNegative]
        have habs : sinAbs (⟨0, s⟩ : BigDec) = ⟨0, s⟩ := by
          simp [sinAbs, hneg0]
        have hval : (trigSin ⟨0, s⟩).intVal = 0 := by
          simp only [trigSin, habs, hneg0, sinK_zero]
          simp [sinVal_zero, BigDec.negD]
        have hrepr : BigDec.negD ⟨0, s⟩ = ⟨0, s⟩ := by simp [BigDec.negD]
        rw [hrepr]
        cases ht : trigSin ⟨0, s⟩ with
        | mk ti ts =>
          have hti : ti = 0 := by rw [ht] at hval; exact hval
          subst hti
          simp [BigDec.negD]
      · have h1 : BigDec.isNegative ⟨i, s⟩ = false := by
          simp only [BigDec.isNegative, decide_eq_false_iff_not, not_lt]
          omega
        have h2 : BigDec.isNegative ⟨-i, s⟩ = true := by
          simp only [BigDec.isNegative, decide_eq_true_eq]
          omega
        have habs : sinAbs ⟨-i, s⟩ = sinAbs ⟨i, s⟩ := by
          simp [sinAbs, BigDec.negD, h1, h2, neg_neg]
        by_cases hk : sinK (sinAbs ⟨i, s⟩) % 2 ≠ 0 <;>
          simp [trigSin, BigDec.negD, habs, h1, h2, hk, BigDec.negD_negD]
  · decide

/-- Cast of a shifted integer against the common denominator: multiplying
by `10^(s-t)` and dividing by `10^s` is dividing by `10^t`. -/
theorem shiftCast (i : ℤ) (t s : ℤ) (h : t ≤ s) :
    (i : ℚ) * ((intTenPow (s - t).toNat : ℤ) : ℚ) / 10 ^ s = (i : ℚ) / 10 ^ t := by
  have h10 : (10 : ℚ) ≠ 0 := by norm_num
  have hp : ((intTenPow (s - t).toNat : ℤ) : ℚ) = (10 : ℚ) ^ (s - t) := by
    simp only [intTenPow]
    push_cast
    rw [← zpow_natCast (10 : ℚ), Int.toNat_of_nonneg (sub_nonneg.2 h)]
  rw [hp, zpow_sub₀ h10]
  have hs : (10 : ℚ) ^ s ≠ 0 := zpow_ne_zero _ h10
  have ht : (10 : ℚ) ^ t ≠ 0 := zpow_ne_zero _ h10
  field_simp
  ring

/-- Value `toRat` agrees with the specification value `intVal / 10^scale`. -/
theorem BigDec.toRat_eq (x : BigDec) :
    x.toRat = (x.intVal : ℚ) / 10 ^ x.scale := by
  cases x with
  | mk i s =>
    simp only [BigDec.toRat]
    split
    · rename_i h
      rw [Rat.divInt_eq_div]
      congr 1
      simp only [intTenPow]
      push_cast
      rw [← zpow_natCast (10 : ℚ), Int.toNat_of_nonneg h]
    · rename_i h
      rw [Rat.divInt_one]
      push_cast
      have hq : ((intTenPow (-s).toNat : ℤ) : ℚ) = (10 : ℚ) ^ (-s) := by
        simp only [intTenPow]
        push_cast
        rw [← zpow_natCast (10 : ℚ), Int.toNat_of_nonneg (by omega : (0 : ℤ) ≤ -s)]
      rw [hq, div_eq_mul_inv, zpow_neg]

/-- The value of an exact decimal subtraction. -/
theorem BigDec.toRat_subD (a b : BigDec) :
    (a.subD b).toRat = a.toRat - b.toRat := by
  rw [BigDec.toRat_eq, BigDec.toRat_eq, BigDec.toRat_eq]
  simp only [BigDec.subD]
  push_cast
  rw [sub_div]
  rw [shiftCast _ _ _ (le_max_left a.scale b.scale),
    shiftCast _ _ _ (le_max_right a.scale b.scale)]

/-- The value of an exact decimal multiplication. -/
theorem BigDec.toRat_mulD (a b : BigDec) :
    (a.mulD b).toRat = a.toRat * b.toRat := by
  rw [BigDec.toRat_eq, BigDec.toRat_eq, BigDec.toRat_eq]
  simp only [BigDec.mulD]
  push_cast
  rw [zpow_add₀ (by norm_num : (10 : ℚ) ≠ 0), div_mul_div_comm]

/-- The value of an integer-valued decimal of scale zero. -/
theorem BigDec.toRat_intD (k : ℤ) : BigDec.toRat ⟨k, 0⟩ = (k : ℚ) := by
  rw [BigDec.toRat_eq]
  simp

/-- The trig constant pi has a positive value. -/
theorem piBD_toRat_pos : 0 < piBD.toRat := by decide

/-- C8, amended.  `sin`'s reduction pipeline is exactly as described —
sign recorded and re-applied, fold at pi/2, polynomial split at pi/4 —
and whenever the truncated 100-significant-digit division does compute the
true floor `k = ⌊|x|/pi⌋`, the reduced argument `|x| - k*pi` does land in
`[0, pi)`.  (The counterexample shows the rounded division can overshoot
the floor, landing the reduced argument below zero.) -/
theorem c8_theorem (x : BigDec) :
    trigSin x = (if (if sinK (sinAbs x) % 2 ≠ 0 then !x.isNegative
        else x.isNegative) then (sinVal (sinAbs x)).negD else sinVal (sinAbs x))
    ∧ (sinK (sinAbs x) = ⌊(sinAbs x).toRat / piBD.toRat⌋ →
        0 ≤ (sinX1 (sinAbs x)).toRat ∧ (sinX1 (sinAbs x)).toRat < piBD.toRat)
    ∧ (piOverTwoBD.ltD (sinX1 (sinAbs x)) = true →
        sinX2 (sinAbs x) = piBD.subD (sinX1 (sinAbs x)))
    ∧ (piOverTwoBD.ltD (sinX1 (sinAbs x)) = false →
        sinX2 (sinAbs x) = sinX1 (sinAbs x))
    ∧ (piOverFourBD.ltD (sinX2 (sinAbs x)) = true →
        sinVal (sinAbs x) = cosRestricted (piOverTwoBD.subD (sinX2 (sinAbs x))))
    ∧ (piOverFourBD.ltD (sinX2 (sinAbs x)) = false →
        sinVal (sinAbs x) = sinRestricted (sinX2 (sinAbs x))) := by
  refine ⟨rfl, ?_, ?_, ?_, ?_, ?_⟩
  · intro hk
    have hs : (sinX1 (sinAbs x)).toRat
        = (sinAbs x).toRat - piBD.toRat * (sinK (sinAbs x) : ℚ) := by
      simp only [sinX1]
      rw [BigDec.toRat_subD, BigDec.toRat_mulD, BigDec.toRat_intD]
    have hp := piBD_toRat_pos
    have hfr : (sinX1 (sinAbs x)).toRat
        = piBD.toRat * Int.fract ((sinAbs x).toRat / piBD.toRat) := by
      rw [hs, hk, Int.fract, mul_sub, mul_div_cancel₀ _ (ne_of_gt hp)]
    constructor
    · rw [hfr]
      exact mul_nonneg hp.le (Int.fract_nonneg _)
    · rw [hfr]
      calc piBD.toRat * Int.fract ((sinAbs x).toRat / piBD.toRat)
          < piBD.toRat * 1 := by
            exact mul_lt_mul_of_pos_left (Int.fract_lt_one _) hp
        _ = piBD.toRat := mul_one _
  · intro h
    simp [sinX2, h]
  · intro h
    simp [sinX2, h]
  · intro h
    simp [sinVal, h]
  · intro h
    simp [sinVal, h]

/-- C8, counterexample.  At the nonnegative decimal input
`pi - 10^(-200)` (scale 200), the crate's 100-significant-digit rounded
division rounds the quotient `|x|/pi = 0.999...` up to exactly 1, so the
computed multiple is `k = 1` although `floor(|x|/pi) = 0`, and the reduced
argument `|x| - k*pi = -10^(-200)` is negative — outside `[0, pi]`. -/
theorem c8_counterexample :
    trigAdversarial.isNegative = false
    ∧ sinK trigAdversarial = 1
    ∧ ⌊BigDec.toRat trigAdversarial / BigDec.toRat piBD⌋ = 0
    ∧ (sinX1 trigAdversarial).intVal < 0
    ∧ (sinX1 trigAdversarial).toRat < 0 := by
  refine ⟨rfl, by decide, ?_, by decide, ?_⟩
  · have hv0 : 0 ≤ BigDec.toRat trigAdversarial := by decide
    have hvp : BigDec.toRat trigAdversarial < BigDec.toRat piBD := by decide
    rw [Int.floor_eq_zero_iff]
    rw [Set.mem_Ico]
    exact ⟨div_nonneg hv0 (le_of_lt piBD_toRat_pos),
      (div_lt_one piBD_toRat_pos).mpr hvp⟩
  · decide

/-- C8, witness: at input 1, the rounded division does compute the true
floor (`k = 0`), the reduced argument lies in `[0, pi)`, and — since
`1 > pi/4` — the cosine branch is taken at `pi/2 - x`. -/
theorem c8_witness :
    (0 ≤ (sinX1 (sinAbs ⟨1, 0⟩)).toRat ∧ (sinX1 (sinAbs ⟨1, 0⟩)).toRat < piBD.toRat)
    ∧ sinVal (sinAbs ⟨1, 0⟩)
        = cosRestricted (piOverTwoBD.subD (sinX2 (sinAbs ⟨1, 0⟩))) := by
  have hk : sinK (sinAbs ⟨1, 0⟩) = ⌊(sinAbs ⟨1, 0⟩ : BigDec).toRat / piBD.toRat⌋ := by
    have h0 : sinK (sinAbs ⟨1, 0⟩) = 0 := by decide
    have hv0 : 0 ≤ (sinAbs ⟨1, 0⟩ : BigDec).toRat := by decide
    have hvp : (sinAbs ⟨1, 0⟩ : BigDec).toRat < piBD.toRat := by decide
    rw [h0]
    symm
    rw [Int.floor_eq_zero_iff, Set.mem_Ico]
    exact ⟨div_nonneg hv0 piBD_toRat_pos.le, (div_lt_one piBD_toRat_pos).mpr hvp⟩
  exact ⟨(c8_theorem ⟨1, 0⟩).2.1 hk, (c8_theorem ⟨1, 0⟩).2.2.2.2.1 (by decide)⟩

/-- C1, counterexample.  Evaluating a division whose divisor is the
decimal zero does not fail with `DivisionByZero`: the decimal path never
reaches the checked division, and float division by zero succeeds with an
infinity — exactly the error value the claim rules out. -/
theorem c1_counterexample :
    eval someLibSin Evaluator.default
      (.Div (.Value (.Decimal (FloatVal.ofRat 100 1)))
        (.Value (.Decimal (FloatVal.ofRat 100 0))))
      = .ok (.Value (.Decimal (.infVal false))) := rfl

/-- C1, amended.  Only `Exact / Exact` divisions take the checked path: an
exact zero divisor fails with `DivisionByZero`, and for a nonzero exact
divisor the result is the exact quotient in lowest terms.  A division in
which the divisor is a `Decimal` zero is performed as float division and
succeeds, producing NaN (for a zero dividend) or a signed infinity. -/
theorem c1_theorem (s : FloatVal → FloatVal) (ev : Evaluator) (a b : ℚ)
    (m em e0 : ℤ) :
    (eval s ev (.Div (.Value (.Exact a)) (.Value (.Exact 0)))
        = .err .divisionByZero)
    ∧ (b ≠ 0 → eval s ev (.Div (.Value (.Exact a)) (.Value (.Exact b)))
          = .ok (.Value (.Exact (a / b)))
        ∧ ((a / b : ℚ)).num.natAbs.Coprime ((a / b : ℚ)).den)
    ∧ (eval s ev (.Div (.Value (.Decimal (.finite m em)))
          (.Value (.Decimal (.finite 0 e0))))
        = .ok (.Value (.Decimal
            (if m = 0 then .nanVal else .infVal (decide (m < 0)))))) := by
  refine ⟨?_, fun hb => ⟨?_, (a / b : ℚ).reduced⟩, ?_⟩
  · simp [eval, evalBinop, Value.div, performOp, checkedDivRat, Except.map]
  · simp [eval, evalBinop, Value.div, performOp, checkedDivRat, hb, Except.map]
  · simp [eval, evalBinop, Value.div, performOp, FloatVal.div, Except.map]

/-- C1, witness: `1 / 2` on the exact path yields the exact `1/2`. -/
theorem c1_witness :
    eval someLibSin Evaluator.default
      (.Div (.Value (.Exact 1)) (.Value (.Exact 2)))
      = .ok (.Value (.Exact (1 / 2))) :=
  ((c1_theorem someLibSin Evaluator.default 1 2 0 0 0).2.1 (by norm_num)).1

/-- C2: the promotion rule of `perform_op`, per operation and operand
shape.  Two `Exact` operands stay exact under rational arithmetic
(division succeeding for a nonzero divisor); any `Decimal` operand makes
the result `Decimal`, after the `Exact` operand (if any) is converted at
the evaluator's precision and rounding *before* the float operation; and
`Decimal + Exact` equals `Decimal + Decimal (convert)` exactly. -/
theorem c2_theorem (ev : Evaluator) (a b : ℚ) (f g : FloatVal) :
    (Value.add (.Exact a) (.Exact b) ev = .Exact (a + b)
      ∧ Value.sub (.Exact a) (.Exact b) ev = .Exact (a - b)
      ∧ Value.mul (.Exact a) (.Exact b) ev = .Exact (a * b)
      ∧ (b ≠ 0 → Value.div (.Exact a) (.Exact b) ev = .ok (.Exact (a / b))))
    ∧ (Value.add (.Decimal f) (.Exact b) ev
        = .Decimal (FloatVal.add ev.precision f (ev.conv b))
      ∧ Value.add (.Exact a) (.Decimal g) ev
        = .Decimal (FloatVal.add ev.precision (ev.conv a) g)
      ∧ Value.add (.Decimal f) (.Decimal g) ev
        = .Decimal (FloatVal.add ev.precision f g)
      ∧ Value.add (.Decimal f) (.Exact b) ev
        = Value.add (.Decimal f) (.Decimal (ev.conv b)) ev)
    ∧ (Value.sub (.Decimal f) (.Exact b) ev
        = .Decimal (FloatVal.sub ev.precision f (ev.conv b))
      ∧ Value.sub (.Exact a) (.Decimal g) ev
        = .Decimal (FloatVal.sub ev.precision (ev.conv a) g)
      ∧ Value.sub (.Decimal f) (.Decimal g) ev
        = .Decimal (FloatVal.sub ev.precision f g))
    ∧ (Value.mul (.Decimal f) (.Exact b) ev
        = .Decimal (FloatVal.mul ev.precision f (ev.conv b))
      ∧ Value.mul (.Exact a) (.Decimal g) ev
        = .Decimal (FloatVal.mul ev.precision (ev.conv a) g)
      ∧ Value.mul (.Decimal f) (.Decimal g) ev
        = .Decimal (FloatVal.mul ev.precision f g))
    ∧ (Value.div (.Decimal f) (.Exact b) ev
        = .ok (.Decimal (FloatVal.div ev.precision f (ev.conv b)))
      ∧ Value.div (.Exact a) (.Decimal g) ev
        = .ok (.Decimal (FloatVal.div ev.precision (ev.conv a) g))
      ∧ Value.div (.Decimal f) (.Decimal g) ev
        = .ok (.Decimal (FloatVal.div ev.precision f g))) := by
  refine ⟨⟨rfl, rfl, rfl, fun hb => ?_⟩, ⟨rfl, rfl, rfl, rfl⟩,
    ⟨rfl, rfl, rfl⟩, ⟨rfl, rfl, rfl⟩, ⟨rfl, rfl, rfl⟩⟩
  simp [Value.div, performOp, checkedDivRat, hb, Except.map]

/-- C2, witness: the exact division clause at `1 / 2`. -/
theorem c2_witness :
    Value.div (.Exact 1) (.Exact 2) Evaluator.default = .ok (.Exact (1 / 2)) :=
  (c2_theorem Evaluator.default 1 2 (.finite 0 0) (.finite 0 0)).1.2.2.2
    (by norm_num)

/-- C4, counterexample.  Evaluating the spec's own example `foo(1,2)` with
unbound `foo` does not return a `NotImplemented` error result: the
evaluator hits `todo!()`, a panic that unwinds out of `main` and
terminates the process. -/
theorem c4_counterexample :
    eval someLibSin Evaluator.default
      (.Apply (.Symbol "foo") [.Value (.Exact 1), .Value (.Exact 2)])
      = .panicked := rfl

/-- C4, amended.  Every unsupported `Apply` — unknown callee or wrong
arity, an `Exact` argument to `sin`, or a callee that reduced to something
other than a bare symbol — is an explicit failure: the evaluator never
guesses or passes a result through, but the failure is a `todo!()` panic
(which terminates the process), not a returned `NotImplemented` error. -/
theorem c4_theorem (s : FloatVal → FloatVal) (ev : Evaluator) :
    (∀ n args, (n ≠ "sin" ∨ args.length ≠ 1) →
        eval s ev (.Apply (.Symbol n) args) = .panicked)
    ∧ (∀ q, eval s ev (.Apply (.Symbol "sin") [.Value (.Exact q)]) = .panicked)
    ∧ (∀ f args rf, eval s ev f = .ok rf → (∀ n, rf ≠ .Symbol n) →
        eval s ev (.Apply f args) = .panicked) := by
  refine ⟨?_, fun q => rfl, ?_⟩
  · intro n args h
    rcases args with _ | ⟨a0, _ | ⟨b0, rest⟩⟩
    · simp [eval, applySin0]
    · rcases h with h | h
      · simp [eval, applySin1, h]
      · simp at h
    · simp [eval, applySin0]
  · intro f args rf hf hns
    rcases args with _ | ⟨a0, _ | ⟨b0, rest⟩⟩ <;> cases rf <;>
      first
      | exact absurd rfl (hns _)
      | simp [eval, applySin0, applySin1, hf]

/-- C4, witness: `sin` applied to two arguments (wrong arity) panics. -/
theorem c4_witness :
    eval someLibSin Evaluator.default
      (.Apply (.Symbol "sin") [.Symbol "x", .Symbol "y"]) = .panicked :=
  (c4_theorem someLibSin Evaluator.default).1 "sin" [.Symbol "x", .Symbol "y"]
    (Or.inr (by decide))

/-- C5: the evaluator's treatment of binary nodes and leaves.  `Value` and
`Symbol` leaves evaluate to themselves; a binary node first evaluates both
children, and if both reduce to `Value` leaves the corresponding `Value`
operation is applied (division through the checked path, its error
propagating), while otherwise the same kind of node is successfully
rebuilt around the two reduced children — an unbound symbol never makes
evaluation fail. -/
theorem c5_theorem (s : FloatVal → FloatVal) (ev : Evaluator) (a b ra rb : Expr)
    (ha : eval s ev a = .ok ra) (hb : eval s ev b = .ok rb) :
    (∀ v, eval s ev (.Value v) = .ok (.Value v))
    ∧ (∀ n, eval s ev (.Symbol n) = .ok (.Symbol n))
    ∧ (∀ va vb, ra = .Value va → rb = .Value vb →
        eval s ev (.Add a b) = .ok (.Value (va.add vb ev))
        ∧ eval s ev (.Sub a b) = .ok (.Value (va.sub vb ev))
        ∧ eval s ev (.Mul a b) = .ok (.Value (va.mul vb ev))
        ∧ eval s ev (.Div a b) = (match va.div vb ev with
            | .ok v => .ok (.Value v)
            | .error e => .err e))
    ∧ ((¬ ∃ va, ra = .Value va) ∨ (¬ ∃ vb, rb = .Value vb) →
        eval s ev (.Add a b) = .ok (.Add ra rb)
        ∧ eval s ev (.Sub a b) = .ok (.Sub ra rb)
        ∧ eval s ev (.Mul a b) = .ok (.Mul ra rb)
        ∧ eval s ev (.Div a b) = .ok (.Div ra rb)) := by
  refine ⟨fun v => rfl, fun n => rfl, ?_, ?_⟩
  · rintro va vb rfl rfl
    refine ⟨?_, ?_, ?_, ?_⟩ <;> simp [eval, ha, hb, evalBinop]
  · intro h
    have hcase : ∀ (numerical : Value → Value → Except DivisionByZero Value)
        (fb : Expr → Expr → Expr), evalBinop ra rb numerical fb = .ok (fb ra rb) := by
      intro numerical fb
      cases hra : ra <;> cases hrb : rb <;>
        first
        | rfl
        | (rcases h with h | h
           · exact absurd ⟨_, hra⟩ h
           · exact absurd ⟨_, hrb⟩ h)
    refine ⟨?_, ?_, ?_, ?_⟩ <;> simp [eval, ha, hb, hcase]

/-- C5, witness: an unbound symbol child makes the node rebuild rather
than fail. -/
theorem c5_witness :
    eval someLibSin Evaluator.default (.Add (.Symbol "x") (.Value (.Exact 2)))
      = .ok (.Add (.Symbol "x") (.Value (.Exact 2))) :=
  ((c5_theorem someLibSin Evaluator.default (.Symbol "x") (.Value (.Exact 2))
      (.Symbol "x") (.Value (.Exact 2)) rfl rfl).2.2.2
    (Or.inl (by rintro ⟨v, hv⟩; cases hv))).1

/-- C6: decimal printing selects its notation from the value's decimal
exponent after rounding to the display budget of 8 significant digits
(the `Display` printer's `round_digits`), independent of the precedence
context and without touching the stored value (printing is a pure
function of the float here): with the exponent shifted by one, `<= -4`
prints scientific `d.dddde<exp>`, the `[-5, -1]` row (reachable for
`-3..-1`, the earlier row taking `-5` and `-4`) prints `0.` plus
zero-padding plus the digits, `0` prints digit-point-digits, and `>= 1`
prints the digits followed by trailing zeros.  Each row's output carries
the prefix `if sgn then "" else "-"` where `sgn` is the library's
is-negative flag, so the sign is printed inverted: `-` appears exactly
on nonnegative values (the `print.rs` sign bug, kept faithfully). -/
theorem c6_theorem (f : FloatVal) (sgn : Bool) (ds : String) (e : ℤ)
    (h : decParts 8 f = (sgn, ds, some e)) :
    (∀ p, printWP 8 (.Value (.Decimal f)) p = fmtDecimal 8 f)
    ∧ printExpr (.Value (.Decimal f)) = fmtDecimal 8 f
    ∧ (e - 1 ≤ -4 → fmtDecimal 8 f
        = (if sgn then "" else "-") ++ ds.take 1 ++ "." ++ ds.drop 1
          ++ "e" ++ Int.repr (e - 1))
    ∧ (-5 ≤ e - 1 → e - 1 ≤ -1 → ¬ (e - 1 ≤ -4) → fmtDecimal 8 f
        = (if sgn then "" else "-") ++ "0."
          ++ String.mk (List.replicate (-(e - 1) - 1).toNat '0') ++ ds)
    ∧ (e - 1 = 0 → fmtDecimal 8 f
        = (if sgn then "" else "-") ++ ds.take 1 ++ "." ++ ds.drop 1)
    ∧ (1 ≤ e - 1 → fmtDecimal 8 f
        = (if sgn then "" else "-") ++ ds
          ++ String.mk (List.replicate (e - 1).toNat '0')) := by
  refine ⟨fun p => rfl, rfl, ?_, ?_, ?_, ?_⟩
  · intro h1
    simp only [fmtDecimal, h, fmtDecimalParts, Option.map_some']
    rw [if_pos h1]
  · intro h1 h2 h3
    simp only [fmtDecimal, h, fmtDecimalParts, Option.map_some']
    rw [if_neg h3, if_pos ⟨h1, h2⟩]
  · intro h1
    simp only [fmtDecimal, h, fmtDecimalParts, Option.map_some']
    rw [if_neg (by omega : ¬ (e - 1 ≤ -4)),
      if_neg (by omega : ¬ (-5 ≤ e - 1 ∧ e - 1 ≤ -1)), if_pos h1]
  · intro h1
    simp only [fmtDecimal, h, fmtDecimalParts, Option.map_some']
    rw [if_neg (by omega : ¬ (e - 1 ≤ -4)),
      if_neg (by omega : ¬ (-5 ≤ e - 1 ∧ e - 1 ≤ -1)),
      if_neg (by omega : ¬ (e - 1 = 0))]

/-- C6, witness: the decimal 5 has negative-sign flag `false`, digits
`50000000` and exponent 1, so the exponent-zero row fires — and, the
sign conditional being inverted, the program prints `-5.0000000` for
the nonnegative value 5. -/
theorem c6_witness :
    printExpr (.Value (.Decimal (FloatVal.ofRat 100 5))) = "-5.0000000" := by
  have h : decParts 8 (FloatVal.ofRat 100 5) = (false, "50000000", some 1) := by
    decide
  have hc := c6_theorem (FloatVal.ofRat 100 5) false "50000000" 1 h
  rw [hc.2.1, hc.2.2.2.2.1 rfl]
  decide

/-- C7, counterexample.  The left operand of `1*2` occupies a `Product`
position and its own precedence (`NoPrecedence`, as an atom) is strictly
lower, yet the printed output contains no parentheses at all — atoms are
never wrapped, so "wrapped exactly when own precedence is lower than the
position's precedence" fails as stated. -/
theorem c7_counterexample :
    PrecedenceContext.ltP
      (Expr.precedence (.Value (.Exact 1))) PrecedenceContext.Product = true
    ∧ printExpr (.Mul (.Value (.Exact 1)) (.Value (.Exact 2))) = "1*2"
    ∧ "1*2".data.contains '(' = false := by
  refine ⟨rfl, by decide, by decide⟩

/-- C7, amended.  Parenthesization is decided per node kind: a binary
node is wrapped exactly when its own precedence is strictly below the
precedence demanded by its position (and prints its children at its own
precedence); atoms, `Neg` and `Apply` subtrees are printed without any
precedence-induced parentheses regardless of position.  In particular
`Mul(Add(a,b),c)` parenthesizes the `Add` subtree and `Add(Mul(a,b),c)`
does not parenthesize the `Mul` subtree. -/
theorem c7_theorem :
    (∀ (a b : Expr) (p : PrecedenceContext),
        printWP 8 (.Add a b) p
          = parensIf (PrecedenceContext.ltP .Sum p)
            (printWP 8 a .Sum ++ "+" ++ printWP 8 b .Sum)
        ∧ printWP 8 (.Sub a b) p
          = parensIf (PrecedenceContext.ltP .Sum p)
            (printWP 8 a .Sum ++ "-" ++ printWP 8 b .Sum)
        ∧ printWP 8 (.Mul a b) p
          = parensIf (PrecedenceContext.ltP .Product p)
            (printWP 8 a .Product ++ "*" ++ printWP 8 b .Product)
        ∧ printWP 8 (.Div a b) p
          = parensIf (PrecedenceContext.ltP .Product p)
            (printWP 8 a .Product ++ "/" ++ printWP 8 b .Product))
    ∧ (∀ (q : ℚ) (p : PrecedenceContext), printWP 8 (.Value (.Exact q)) p = ratStr q)
    ∧ (∀ (n : String) (p : PrecedenceContext), printWP 8 (.Symbol n) p = n)
    ∧ (∀ (x : Expr) (p : PrecedenceContext),
        printWP 8 (.Neg x) p = "-" ++ printWP 8 x .Neg)
    ∧ (∀ (g : Expr) (args : List Expr) (p : PrecedenceContext),
        printWP 8 (.Apply g args) p
          = "\"" ++ printWP 8 g .NoPrecedence ++ "\"(" ++ printArgsStr 8 args ++ ")")
    ∧ (∀ a b c : Expr, printExpr (.Mul (.Add a b) c)
        = "(" ++ printWP 8 a .Sum ++ "+" ++ printWP 8 b .Sum ++ ")"
          ++ "*" ++ printWP 8 c .Product)
    ∧ (∀ a b c : Expr, printExpr (.Add (.Mul a b) c)
        = printWP 8 a .Product ++ "*" ++ printWP 8 b .Product
          ++ "+" ++ printWP 8 c .Sum) := by
  refine ⟨fun a b p => ⟨rfl, rfl, rfl, rfl⟩, fun q p => rfl, fun n p => rfl,
    fun x p => rfl, fun g args p => rfl, fun a b c => ?_, fun a b c => ?_⟩
  · show parensIf false _ = _
    rw [parensIf, if_neg (by simp)]
    show parensIf true _ ++ "*" ++ _ = _
    rw [parensIf, if_pos rfl]
    simp [String.append_assoc]
  · show parensIf false _ = _
    rw [parensIf, if_neg (by simp)]
    show parensIf false _ ++ "+" ++ _ = _
    rw [parensIf, if_neg (by simp)]

/-- C10: the right child of `Sub` (and `Div`) is printed at the node's
own precedence, so an equal-precedence right child is never wrapped:
`Sub(a, Sub(b, c))` prints as the three operands joined by `-` with no
parentheses, and the grammar parses that string back left-associated, as
`Sub(Sub(a, b), c)` — likewise for `Div` with `/`. -/
theorem c10_theorem :
    (∀ a b c : Expr, printExpr (.Sub a (.Sub b c))
        = printWP 8 a .Sum ++ "-" ++ (printWP 8 b .Sum ++ "-" ++ printWP 8 c .Sum))
    ∧ (∀ a b c : Expr, printExpr (.Div a (.Div b c))
        = printWP 8 a .Product ++ "/"
          ++ (printWP 8 b .Product ++ "/" ++ printWP 8 c .Product))
    ∧ printExpr (.Sub (.Symbol "a") (.Sub (.Symbol "b") (.Symbol "c"))) = "a-b-c"
    ∧ parseExpr Evaluator.default "a-b-c"
        = some (.Sub (.Sub (.Symbol "a") (.Symbol "b")) (.Symbol "c"))
    ∧ printExpr (.Div (.Symbol "a") (.Div (.Symbol "b") (.Symbol "c"))) = "a/b/c"
    ∧ parseExpr Evaluator.default "a/b/c"
        = some (.Div (.Div (.Symbol "a") (.Symbol "b")) (.Symbol "c")) := by
  refine ⟨fun a b c => ?_, fun a b c => ?_, by decide, rfl, by decide, rfl⟩
  · show parensIf false _ = _
    rw [parensIf, if_neg (by simp)]
    show _ ++ "-" ++ parensIf false _ = _
    rw [parensIf, if_neg (by simp)]
  · show parensIf false _ = _
    rw [parensIf, if_neg (by simp)]
    show _ ++ "/" ++ parensIf false _ = _
    rw [parensIf, if_neg (by simp)]
